import Mathlib

/-!
Verification of the Inovesa phase-space evolution engine against its
natural-language specification.  The embedding follows the C++ sources:
the FokkerPlanckMap constructor (heritage-map stencil), the HeritageMap
declaration, and the step orchestration in main.cpp.
-/

namespace Inovesa

/-- Damping/diffusion variants of the Fokker-Planck map
(enum FPType used by vfps::FokkerPlanckMap). -/
inductive FPType
  | none
  | damping_only
  | diffusion_only
  | full
deriving DecidableEq

/-- One entry of the heritage map: (source cell index, interpolation weight);
the struct hi of HeritageMap.hpp.  Weights are modelled as rationals. -/
abbrev HI : Type := ℕ × ℚ

/-- Constant e0/(2 dp) computed in the FokkerPlanckMap constructor,
where dp = in->getDelta(1) is the grid spacing of the p axis. -/
def e02d (e0 dp : ℚ) : ℚ := e0 / (2 * dp)

/-- Constant e0/(dp*dp) computed in the FokkerPlanckMap constructor. -/
def e02d2 (e0 dp : ℚ) : ℚ := e0 / (dp * dp)

/-- Central weight 1+e0 of the damping-only variant. -/
def daome (e0 : ℚ) : ℚ := 1 + e0

/-- Central weight 1-2*e02d2 of the diffusion-only variant. -/
def diome (e0 dp : ℚ) : ℚ := 1 - 2 * e02d2 e0 dp

/-- Central weight 1+e0-2*e02d2 of the full variant. -/
def fptme (e0 dp : ℚ) : ℚ := 1 + e0 - 2 * e02d2 e0 dp

/-- The three-point heritage-map row (i,j) precomputed by the
FokkerPlanckMap constructor: the boundary rows j = 0 and j = ysize-1 hold
three sentinel entries (index 0, weight 0); interior rows hold the
variant-dependent stencil gathered from cells i*ysize+j-1, i*ysize+j and
i*ysize+j+1.  The p axis enters through its spacing dp = getDelta(1) and
coordinates x1 j = x(1,j). -/
def fpStencil (ysize : ℕ) (fpt : FPType) (e0 dp : ℚ) (x1 : ℕ → ℚ)
    (i j : ℕ) : List HI :=
  if j = 0 ∨ j = ysize - 1 then
    [(0, 0), (0, 0), (0, 0)]
  else
    match fpt with
    | .none =>
        [(i * ysize + j, 1), (0, 0), (0, 0)]
    | .damping_only =>
        [(i * ysize + j - 1, e02d e0 dp * x1 j),
         (i * ysize + j, daome e0),
         (i * ysize + j + 1, -(e02d e0 dp * x1 j))]
    | .diffusion_only =>
        [(i * ysize + j - 1, e02d2 e0 dp),
         (i * ysize + j, diome e0 dp),
         (i * ysize + j + 1, e02d2 e0 dp)]
    | .full =>
        [(i * ysize + j - 1, e02d2 e0 dp + e02d e0 dp * x1 j),
         (i * ysize + j, fptme e0 dp),
         (i * ysize + j + 1, e02d2 e0 dp - e02d e0 dp * x1 j)]

/-- Modelled from the spec: HeritageMap::apply is only declared under src/
(HeritageMap.hpp); its implementation file is missing.  Section 4.5 of the
spec gives the contract `out[k] = sum over the stencil of w * in[s]`.
The input mesh is read through its flat cell index. -/
def applySM (hm : ℕ → ℕ → List HI) (inM : ℕ → ℚ) (i j : ℕ) : ℚ :=
  ((hm i j).map (fun p => p.2 * inM p.1)).sum

/-- Modelled from the spec: the Identity map implementation is not under
src/ (main.cpp only includes SM/Identity.hpp and uses it as the fallback
pass-through map), so it is modelled as the strict pass-through which the
spec's map-variant list implies. -/
def identityApply (inM : ℕ → ℚ) (c : ℕ) : ℚ := inM c

/-- Sum of the weights of one heritage-map row. -/
def rowSum (l : List HI) : ℚ := (l.map Prod.snd).sum

/-- Weights that the specification's Fokker-Planck formulas (full variant)
prescribe for an interior row: diffusion part e/(2 dp^2), centre
1 + e - e/dp^2.  Written from the spec's words, to be compared with
fpStencil, which is written from the source. -/
def specFullRow (ysize : ℕ) (e dp : ℚ) (x1 : ℕ → ℚ) (i j : ℕ) : List HI :=
  [(i * ysize + j - 1, e / (2 * (dp * dp)) + e / (2 * dp) * x1 j),
   (i * ysize + j, 1 + e - e / (dp * dp)),
   (i * ysize + j + 1, e / (2 * (dp * dp)) - e / (2 * dp) * x1 j)]

end Inovesa

namespace Inovesa

/-- Claim C1 (amended): for every interior row j of the full
Fokker-Planck stencil the weights are w_minus = e/dp^2 + e/(2 dp) * p_j on
cell j-1, w_zero = 1 + e - 2 e/dp^2 on cell j, and
w_plus = e/dp^2 - e/(2 dp) * p_j on cell j+1 (not e/(2 dp^2) and
1 + e - e/dp^2 as the spec writes). -/
theorem fp_full_weights (ysize i j : ℕ) (e0 dp : ℚ) (x1 : ℕ → ℚ)
    (h1 : 1 ≤ j) (h2 : j + 1 < ysize) :
    fpStencil ysize FPType.full e0 dp x1 i j =
      [(i * ysize + j - 1, e0 / (dp * dp) + e0 / (2 * dp) * x1 j),
       (i * ysize + j, 1 + e0 - 2 * (e0 / (dp * dp))),
       (i * ysize + j + 1, e0 / (dp * dp) - e0 / (2 * dp) * x1 j)] := by
  unfold fpStencil
  rw [if_neg (by omega)]
  rfl

/-- Witness for fp_full_weights at ysize = 4, i = 0, j = 1, e0 = 1,
dp = 1, p-coordinates constantly 2. -/
theorem fp_full_weights_witness :
    fpStencil 4 FPType.full 1 1 (fun _ => 2) 0 1 =
      [(0 * 4 + 1 - 1, 1 / ((1 : ℚ) * 1) + 1 / (2 * 1) * 2),
       (0 * 4 + 1, 1 + 1 - 2 * ((1 : ℚ) / (1 * 1))),
       (0 * 4 + 1 + 1, 1 / ((1 : ℚ) * 1) - 1 / (2 * 1) * 2)] :=
  fp_full_weights 4 0 1 1 1 (fun _ => 2) (by decide) (by decide)

/-- Counterexample to claim C1 as stated: at ysize = 3, e = 1, dp = 1,
p_1 = 0, interior row j = 1, the precomputed stencil differs from the
spec's three formulas (the code's centre weight is 0, the spec predicts
1). -/
theorem fp_full_weights_cex :
    fpStencil 3 FPType.full 1 1 (fun _ => 0) 0 1 ≠
      specFullRow 3 1 1 (fun _ => 0) 0 1 := by
  have h1 : fpStencil 3 FPType.full 1 1 (fun _ => 0) 0 1 =
      [(0, 1), (1, 0), (2, 1)] := by
    norm_num [fpStencil, e02d, e02d2, fptme]
  have h2 : specFullRow 3 1 1 (fun _ => 0) 0 1 =
      [(0, 1 / 2), (1, 1), (2, 1 / 2)] := by
    norm_num [specFullRow]
  rw [h1, h2]
  intro hEq
  simp only [List.cons.injEq, Prod.mk.injEq] at hEq
  norm_num at hEq

/-- Claim C2 (amended): a Fokker-Planck stencil row sums to 0 on the
boundary rows j = 0 and j = ysize-1; an interior row sums to exactly 1
for the none and diffusion-only variants and to exactly 1 + e0 for the
damping-only and full variants (not to 1 within 1e-6 in every case). -/
theorem fp_stencil_row_sum (ysize : ℕ) (fpt : FPType) (e0 dp : ℚ)
    (x1 : ℕ → ℚ) (i j : ℕ) :
    rowSum (fpStencil ysize fpt e0 dp x1 i j) =
      if j = 0 ∨ j = ysize - 1 then 0
      else match fpt with
      | .none => 1
      | .damping_only => 1 + e0
      | .diffusion_only => 1
      | .full => 1 + e0 := by
  by_cases hb : j = 0 ∨ j = ysize - 1
  · simp [rowSum, fpStencil, hb]
  · cases fpt <;> (simp [rowSum, fpStencil, hb, daome, diome, fptme]; try ring)

/-- Counterexample to claim C2 as stated: the boundary row j = 0 of the
none-variant stencil (ysize = 3, e0 = 1, dp = 1) sums to 0, which is not
within 1e-6 of 1. -/
theorem fp_stencil_row_sum_cex :
    ¬ |rowSum (fpStencil 3 FPType.none 1 1 (fun _ => 0) 0 0) - 1|
        ≤ 1 / 1000000 := by
  have h : rowSum (fpStencil 3 FPType.none 1 1 (fun _ => 0) 0 0) = 0 := by
    norm_num [rowSum, fpStencil]
  rw [h]
  norm_num

/-- Claim C5: for every Fokker-Planck variant the boundary rows j = 0 and
j = ysize-1 consist of three sentinel entries (index 0, weight 0), so after
apply() the corresponding output cells are zero for every input mesh. -/
theorem fp_boundary_rows_zero (ysize : ℕ) (fpt : FPType) (e0 dp : ℚ)
    (x1 inM : ℕ → ℚ) (i j : ℕ) (hj : j = 0 ∨ j = ysize - 1) :
    fpStencil ysize fpt e0 dp x1 i j = [(0, 0), (0, 0), (0, 0)]
    ∧ applySM (fpStencil ysize fpt e0 dp x1) inM i j = 0 := by
  have h1 : fpStencil ysize fpt e0 dp x1 i j = [(0, 0), (0, 0), (0, 0)] := by
    unfold fpStencil
    rw [if_pos hj]
  refine ⟨h1, ?_⟩
  unfold applySM
  rw [h1]
  simp

/-- Witness for fp_boundary_rows_zero: full variant, ysize = 3, row j = 0,
input mesh constantly 2. -/
theorem fp_boundary_rows_zero_witness :
    fpStencil 3 FPType.full 1 1 (fun _ => 0) 0 0 = [(0, 0), (0, 0), (0, 0)]
    ∧ applySM (fpStencil 3 FPType.full 1 1 (fun _ => 0)) (fun _ => 2) 0 0
        = 0 :=
  fp_boundary_rows_zero 3 FPType.full 1 1 (fun _ => 0) (fun _ => 2) 0 0
    (Or.inl rfl)

/-- Claim C4 (amended): applying the FPType::none stencil passes interior
rows through unchanged (it agrees with the Identity map there) but zeroes
the boundary rows j = 0 and j = ysize-1, so it is not a strict
pass-through equivalent to Identity on every cell. -/
theorem fp_none_rows (ysize : ℕ) (e0 dp : ℚ) (x1 inM : ℕ → ℚ) (i j : ℕ) :
    applySM (fpStencil ysize FPType.none e0 dp x1) inM i j =
      if j = 0 ∨ j = ysize - 1 then 0
      else identityApply inM (i * ysize + j) := by
  by_cases hb : j = 0 ∨ j = ysize - 1 <;>
    simp [applySM, fpStencil, identityApply, hb]

/-- Counterexample to claim C4 as stated: with ysize = 3 and an input mesh
holding 5 everywhere, the FPType::none map writes 0 to the boundary cell
(0,0) while the corresponding input cell holds 5. -/
theorem fp_none_rows_cex :
    applySM (fpStencil 3 FPType.none 1 1 (fun _ => 0)) (fun _ => 5) 0 0 = 0
    ∧ (0 : ℚ) ≠ 5 := by
  constructor
  · norm_num [applySM, fpStencil]
  · norm_num

end Inovesa

namespace Inovesa

/-- The operations of one iteration of the main simulation loop
(main.cpp lines 648-735). -/
inductive Stage
  | wkmUpdate
  | renormalizeS
  | integralS
  | output
  | wmApply
  | wmTrack
  | rm1Apply
  | rm1Track
  | rm2Apply
  | rm2Track
  | fpmApply
  | fpmTrack
  | updateXProj
deriving DecidableEq

/-- The charge-renormalisation branch of the loop body
(main.cpp lines 653-659): normalize when renormalize is positive and
divides the step index, integral otherwise. -/
def renormChoice (renorm i : ℕ) : Stage :=
  if 0 < renorm ∧ i % renorm = 0 then Stage.renormalizeS else Stage.integralS

/-- Event trace of one iteration of the main simulation loop, transcribed
from main.cpp lines 648-735: optional wake update, the renormalisation
branch, optional periodic output, then the map stages wm (wake), rm1
(rotation or RF kick), optional rm2 (drift), fpm (Fokker-Planck) each
followed by its particle-tracking applyTo, and finally the x-projection
update of mesh1. -/
def loopBody (hasWkm : Bool) (renorm outstep : ℕ) (hasRm2 : Bool)
    (i : ℕ) : List Stage :=
  (if hasWkm then [Stage.wkmUpdate] else [])
  ++ [renormChoice renorm i]
  ++ (if 0 < outstep ∧ i % outstep = 0 then [Stage.output] else [])
  ++ [Stage.wmApply, Stage.wmTrack, Stage.rm1Apply, Stage.rm1Track]
  ++ (if hasRm2 then [Stage.rm2Apply, Stage.rm2Track] else [])
  ++ [Stage.fpmApply, Stage.fpmTrack, Stage.updateXProj]

/-- The six mesh-map stages named by the orchestration claim. -/
def isMapStage : Stage → Bool
  | .wkmUpdate => true
  | .wmApply => true
  | .rm1Apply => true
  | .rm2Apply => true
  | .fpmApply => true
  | .updateXProj => true
  | _ => false

/-- The two stages of the renormalisation branch. -/
def isRenormStage : Stage → Bool
  | .renormalizeS => true
  | .integralS => true
  | _ => false

/-- Claim C3: with a wake-kick map present, the map stages of every loop
iteration appear in the strict order wake update, wake apply (to mesh2),
rotation apply (or RF kick followed by drift, to mesh3), Fokker-Planck
apply (to mesh1), x-projection update, for every renormalisation period,
output stride and step index. -/
theorem loop_map_stage_order (renorm outstep : ℕ) (hasRm2 : Bool) (i : ℕ) :
    (loopBody true renorm outstep hasRm2 i).filter isMapStage =
      [Stage.wkmUpdate, Stage.wmApply, Stage.rm1Apply]
      ++ (if hasRm2 then [Stage.rm2Apply] else [])
      ++ [Stage.fpmApply, Stage.updateXProj] := by
  by_cases hr : 0 < renorm ∧ i % renorm = 0 <;>
    by_cases ho : 0 < outstep ∧ i % outstep = 0 <;>
    cases hasRm2 <;>
    simp [loopBody, renormChoice, isMapStage, hr, ho, List.filter_append]

/-- Claim C7: every loop iteration performs exactly one of normalize and
integral refresh; it is normalize exactly when the renormalisation period
is positive and divides the step index, and the integral refresh in every
other case (renormalize = 0 included). -/
theorem renormalize_branch (hasWkm : Bool) (renorm outstep : ℕ)
    (hasRm2 : Bool) (i : ℕ) :
    (loopBody hasWkm renorm outstep hasRm2 i).filter isRenormStage
        = [renormChoice renorm i]
    ∧ (renormChoice renorm i = Stage.renormalizeS
        ↔ 0 < renorm ∧ i % renorm = 0)
    ∧ (renormChoice renorm i = Stage.integralS
        ↔ ¬(0 < renorm ∧ i % renorm = 0)) := by
  refine ⟨?_, ?_, ?_⟩
  · by_cases hr : 0 < renorm ∧ i % renorm = 0 <;>
      by_cases ho : 0 < outstep ∧ i % outstep = 0 <;>
      cases hasWkm <;> cases hasRm2 <;>
      simp [loopBody, renormChoice, isRenormStage, hr, ho, List.filter_append]
  · by_cases hr : 0 < renorm ∧ i % renorm = 0 <;> simp [renormChoice, hr]
  · by_cases hr : 0 < renorm ∧ i % renorm = 0 <;> simp [renormChoice, hr]

end Inovesa

namespace Inovesa

/-- The main simulation loop of main.cpp line 648, as the count of
iterations executed by `for (i = 0; i < bound; i++)` starting from i. -/
def loopFromLt (bound : ℚ) (i : ℕ) : ℕ :=
  if h : (i : ℚ) < bound then loopFromLt bound (i + 1) + 1 else 0
termination_by ⌈bound⌉₊ - i
decreasing_by
  have hi : i < ⌈bound⌉₊ := Nat.lt_ceil.mpr h
  omega

/-- The older main loop of the 2015 main.cpp (part_000 line 310), as the
count of iterations executed by `for (i = 0; i <= bound; i++)` starting
from i. -/
def loopFromLe (bound : ℚ) (i : ℕ) : ℕ :=
  if h : (i : ℚ) ≤ bound then loopFromLe bound (i + 1) + 1 else 0
termination_by ⌊bound⌋₊ + 1 - i
decreasing_by
  have hi : i ≤ ⌊bound⌋₊ := Nat.le_floor h
  omega

theorem loopFromLt_eq (bound : ℚ) (i : ℕ) :
    loopFromLt bound i = ⌈bound⌉₊ - i := by
  generalize hn : ⌈bound⌉₊ - i = n
  induction n generalizing i with
  | zero =>
    unfold loopFromLt
    split
    · rename_i h
      have hi : i < ⌈bound⌉₊ := Nat.lt_ceil.mpr h
      omega
    · omega
  | succ n ih =>
    unfold loopFromLt
    split
    · rename_i h
      have h1 := ih (i + 1) (by omega)
      omega
    · rename_i h
      have hi : ⌈bound⌉₊ ≤ i := Nat.ceil_le.mpr (le_of_not_lt h)
      omega

theorem loopFromLe_eq (bound : ℚ) (h0 : 0 ≤ bound) (i : ℕ) :
    loopFromLe bound i = ⌊bound⌋₊ + 1 - i := by
  generalize hn : ⌊bound⌋₊ + 1 - i = n
  induction n generalizing i with
  | zero =>
    unfold loopFromLe
    split
    · rename_i h
      have hi : i ≤ ⌊bound⌋₊ := Nat.le_floor h
      omega
    · omega
  | succ n ih =>
    unfold loopFromLe
    split
    · rename_i h
      have h1 := ih (i + 1) (by omega)
      omega
    · rename_i h
      have hf : (⌊bound⌋₊ : ℚ) < (i : ℚ) :=
        lt_of_le_of_lt (Nat.floor_le h0) (lt_of_not_le h)
      have hi : ⌊bound⌋₊ < i := by exact_mod_cast hf
      omega

/-- Claim C6 (amended): when steps * rotations is a whole number n, the
main simulation loop of main.cpp (condition i < steps*rotations) executes
exactly n iterations and terminates, while the older loop of the 2015
main.cpp (condition i <= steps*rotations) executes n + 1 iterations, one
beyond the n-th. -/
theorem sim_loop_iterations (steps n : ℕ) (rot : ℚ) (h0 : 0 ≤ rot)
    (hn : (steps : ℚ) * rot = n) :
    loopFromLt ((steps : ℚ) * rot) 0 = n
    ∧ loopFromLe ((steps : ℚ) * rot) 0 = n + 1 := by
  have hb : (0 : ℚ) ≤ (steps : ℚ) * rot :=
    mul_nonneg (by positivity) h0
  constructor
  · rw [loopFromLt_eq, hn, Nat.ceil_natCast]
    omega
  · rw [loopFromLe_eq _ hb, hn, Nat.floor_natCast]
    omega

/-- Witness for sim_loop_iterations at steps = 2, rotations = 3/2,
n = 3. -/
theorem sim_loop_iterations_witness :
    loopFromLt (((2 : ℕ) : ℚ) * (3 / 2)) 0 = 3
    ∧ loopFromLe (((2 : ℕ) : ℚ) * (3 / 2)) 0 = 3 + 1 :=
  sim_loop_iterations 2 3 (3 / 2) (by norm_num) (by norm_num)

/-- Counterexample to claim C6 as stated: at steps = 1, rotations = 1 the
older loop (part_000, condition i <= steps*rotations) executes 2
iterations, one beyond the (steps * rotations)-th = 1st. -/
theorem sim_loop_iterations_cex :
    loopFromLe (((1 : ℕ) : ℚ) * 1) 0 = 2 ∧ (2 : ℕ) ≠ 1 * 1 := by
  constructor
  · rw [loopFromLe_eq _ (by norm_num)]
    norm_num
  · decide

end Inovesa

namespace Inovesa

/-- Outcome of the start-up phase of main (main.cpp lines 384-394 and the
loop that follows): either the configuration is rejected before the
simulation loop (printing an error message and returning), or the loop
runs its iterations. -/
inductive RunOutcome
  | configRejected
  | ran (iters : ℕ)
deriving DecidableEq

/-- The impedance-file length check of main.cpp lines 384-394: a file
impedance with fewer than ps_size frequency samples is rejected. -/
def impedanceRejected (impedanceFileGiven : Bool) (nFreqs N : ℕ) : Bool :=
  impedanceFileGiven && decide (nFreqs < N)

/-- Start-up control flow of main: when the impedance file is too short
the program returns before the simulation loop; otherwise the loop of
line 648 runs. -/
def mainRun (impedanceFileGiven : Bool) (nFreqs N : ℕ)
    (bound : ℚ) : RunOutcome :=
  if impedanceRejected impedanceFileGiven nFreqs N then
    RunOutcome.configRejected
  else
    RunOutcome.ran (loopFromLt bound 0)

/-- Claim C8: an impedance loaded from a file with fewer than N frequency
samples is rejected before the simulation loop: the run ends in the
rejected state and no simulation iterations are reported for any loop
bound. -/
theorem impedance_file_too_short (nFreqs N : ℕ) (bound : ℚ)
    (h : nFreqs < N) :
    mainRun true nFreqs N bound = RunOutcome.configRejected
    ∧ ∀ it : ℕ, mainRun true nFreqs N bound ≠ RunOutcome.ran it := by
  have hrej : impedanceRejected true nFreqs N = true := by
    simp [impedanceRejected, h]
  constructor
  · unfold mainRun
    rw [hrej]
    rfl
  · intro it
    unfold mainRun
    rw [hrej]
    simp

/-- Witness for impedance_file_too_short at nFreqs = 3, N = 5,
loop bound 7. -/
theorem impedance_file_too_short_witness :
    mainRun true 3 5 7 = RunOutcome.configRejected
    ∧ ∀ it : ℕ, mainRun true 3 5 7 ≠ RunOutcome.ran it :=
  impedance_file_too_short 3 5 7 (by decide)

/-- Number of steps per synchrotron period used by main.cpp line 189:
the configured value clamped from below by 1. -/
def stepsUsed (configured : ℕ) : ℕ := max configured 1

/-- Claim C9: the steps value used is max(configured, 1), hence at least 1
and nonzero as a rational, so the per-step angle 2 pi / steps and the time
increment 1/(f_s * steps) never divide by zero, even when 0 steps are
configured. -/
theorem steps_clamped_positive (configured : ℕ) :
    stepsUsed configured = max configured 1
    ∧ 1 ≤ stepsUsed configured
    ∧ ((stepsUsed configured : ℚ)) ≠ 0 := by
  refine ⟨rfl, ?_, ?_⟩
  · unfold stepsUsed
    omega
  · have h1 : stepsUsed configured ≠ 0 := by
      unfold stepsUsed
      omega
    exact_mod_cast h1

/-- Whether main.cpp lines 450-472 build a wake-kick map: yes when the
wake-file name is longer than four characters (WakeFunctionMap) or the
vacuum-chamber gap is nonzero (WakePotentialMap); otherwise wkm stays
null. -/
def wkmBuilt (wakefileLen : ℕ) (gap : ℚ) : Bool :=
  decide (4 < wakefileLen) || decide (gap ≠ 0)

/-- Which map writes mesh2 in the wake stage. -/
inductive WMChoice
  | wakeMap
  | identityMap
deriving DecidableEq

/-- The wm selection of main.cpp lines 468-472: the wake-kick map when one
was built, otherwise an Identity map from mesh1 to mesh2. -/
def wmChosen (wakefileLen : ℕ) (gap : ℚ) : WMChoice :=
  if wkmBuilt wakefileLen gap then WMChoice.wakeMap else WMChoice.identityMap

/-- Claim C10: with vacuum-chamber gap 0 and no wake file, no wake-kick
map is built, the wake stage is the Identity map copying mesh1 into mesh2
unchanged, and no iteration of the loop contains a wake update. -/
theorem no_gap_no_wakefile_identity (wakefileLen : ℕ) (gap : ℚ)
    (renorm outstep : ℕ) (hasRm2 : Bool) (i : ℕ) (inM : ℕ → ℚ) (c : ℕ)
    (hw : wakefileLen = 0) (hg : gap = 0) :
    wkmBuilt wakefileLen gap = false
    ∧ wmChosen wakefileLen gap = WMChoice.identityMap
    ∧ Stage.wkmUpdate ∉ loopBody (wkmBuilt wakefileLen gap)
        renorm outstep hasRm2 i
    ∧ identityApply inM c = inM c := by
  subst hw hg
  have hb : wkmBuilt 0 0 = false := by decide
  refine ⟨hb, ?_, ?_, rfl⟩
  · unfold wmChosen
    rw [hb]
    rfl
  · rw [hb]
    by_cases hr : 0 < renorm ∧ i % renorm = 0 <;>
      by_cases ho : 0 < outstep ∧ i % outstep = 0 <;>
      cases hasRm2 <;>
      simp [loopBody, renormChoice, hr, ho]

/-- Witness for no_gap_no_wakefile_identity at renormalisation period 2,
output stride 3, rotation variant without drift, step 0, input mesh
constantly 3, cell 5. -/
theorem no_gap_no_wakefile_identity_witness :
    wkmBuilt 0 0 = false
    ∧ wmChosen 0 0 = WMChoice.identityMap
    ∧ Stage.wkmUpdate ∉ loopBody (wkmBuilt 0 0) 2 3 false 0
    ∧ identityApply (fun _ => 3) 5 = (fun _ => (3 : ℚ)) 5 :=
  no_gap_no_wakefile_identity 0 0 2 3 false 0 (fun _ => 3) 5 rfl rfl

end Inovesa
